import Mathlib

/-!
Verification of `chinese-room-keyboard`: a shallow embedding in Lean 4 of
`src/symbols.py` (symbol generator: shape families, uniqueness guard, retry
loop, batch driver) and `src/keyboard.py` (key mapping, symbol loading).

Modelling conventions:
* An image is identified by an abstract value (`Img := Nat`); the perceptual
  hash `_get_symbol_hash` is an arbitrary function `hash : Img → Nat` passed
  as a parameter (the claims quantify over the images actually produced).
* Python's global RNG that drives image generation is modelled as a stream
  `cand : Nat → Img` of candidate images together with a position counter:
  attempt number `pos` renders the image `cand pos`.
* `self.generated_hashes` (a Python `set`) is modelled as a `List Nat` with
  membership; `set.add` is cons.
* Exceptions are modelled with `Option` / `Except`.
-/

namespace SymbolGen

/-- `SymbolGenerator.__init__`: `self.size = size` with default `size = 500`. -/
def size : ℕ := 500

/-- `self.margin = size // 10`. -/
def margin : ℕ := size / 10

/-- `self.effective_size = size - 2 * self.margin`. -/
def effective_size : ℕ := size - 2 * margin

/-- `self.center = size // 2`. -/
def center : ℕ := size / 2

/-- Images are abstract tokens; the hash function is a parameter. -/
abbrev Img := ℕ

/-- `SymbolGenerator._is_unique`: compute the symbol hash; if it is already in
`generated_hashes` return `False` without mutation, otherwise add it and
return `True`.  Returns the boolean together with the new hash set. -/
def is_unique (hash : Img → ℕ) (st : List ℕ) (image : Img) : Bool × List ℕ :=
  let symbol_hash := hash image
  if symbol_hash ∈ st then (false, st)
  else (true, symbol_hash :: st)

/-- `max_attempts = 100` in `SymbolGenerator.generate_symbol`. -/
def max_attempts : ℕ := 100

/-- One execution of the `while attempts < max_attempts` loop body of
`generate_symbol`, recursing on the remaining number of attempts.
Returns `(result, hashes, stream position, loop iterations executed)`:
`result = some img` when an attempt was accepted and `none` when every
attempt was rejected (the `raise Exception(...)` path). -/
def generate_symbol_aux (cand : ℕ → Img) (hash : Img → ℕ) :
    ℕ → List ℕ → ℕ → Option Img × List ℕ × ℕ × ℕ
  | pos, st, 0 => (none, st, pos, 0)
  | pos, st, fuel + 1 =>
    let image := cand pos
    match is_unique hash st image with
    | (true, st') => (some image, st', pos + 1, 1)
    | (false, st') =>
      let r := generate_symbol_aux cand hash (pos + 1) st' fuel
      (r.1, r.2.1, r.2.2.1, r.2.2.2 + 1)

/-- `SymbolGenerator.generate_symbol`: run the retry loop with
`max_attempts = 100` starting from stream position `pos` and hash set `st`. -/
def generate_symbol (cand : ℕ → Img) (hash : Img → ℕ) (pos : ℕ) (st : List ℕ) :
    Option Img × List ℕ × ℕ × ℕ :=
  generate_symbol_aux cand hash pos st max_attempts

/-- The filename `f'symbol_{i+1}.png'` used by `generate_multiple_symbols`
(the `output_dir` prefix is elided; it is constant across one batch). -/
def file_name (i : ℕ) : String := "symbol_" ++ toString i ++ ".png"

/-- The `for i in range(num_symbols)` loop of `generate_multiple_symbols`,
recursing on the number of remaining symbols with `i` the 0-based loop
index.  Each iteration calls `save_symbol` (= `generate_symbol` + write file
`symbol_{i+1}.png`); on an exception it reports index `i+1` and breaks.
Returns `(written files in order, accepted images in order, reported failure index)`. -/
def generate_multiple_aux (cand : ℕ → Img) (hash : Img → ℕ) :
    ℕ → ℕ → List ℕ → ℕ → List String × List Img × Option ℕ
  | _, _, _, 0 => ([], [], none)
  | i, pos, st, rem + 1 =>
    match generate_symbol cand hash pos st with
    | (some image, st', pos', _) =>
      let r := generate_multiple_aux cand hash (i + 1) pos' st' rem
      (file_name (i + 1) :: r.1, image :: r.2.1, r.2.2)
    | (none, _, _, _) => ([], [], some (i + 1))

/-- `generate_multiple_symbols(num_symbols)`: a fresh `SymbolGenerator()` is
created, so the hash set starts empty and the stream position at 0. -/
def generate_multiple_symbols (cand : ℕ → Img) (hash : Img → ℕ) (num_symbols : ℕ) :
    List String × List Img × Option ℕ :=
  generate_multiple_aux cand hash 0 0 [] num_symbols

end SymbolGen

namespace SymbolGen

/-- A planar point, `(x, y)`. -/
abbrev Point := ℝ × ℝ

/-- `SymbolGenerator._generate_star` with its random draws as arguments:
`num_points = randint(4, 9)`, `inner_radius = effective_size * uniform(0.1, 0.2)`,
`outer_radius = effective_size * uniform(0.35, 0.45)`, `rotation = uniform(0, π)`. -/
noncomputable def generate_star (num_points : ℕ) (inner_radius outer_radius rotation : ℝ) :
    List Point :=
  (List.range (num_points * 2)).map fun (i : ℕ) =>
    let angle := rotation + ((i : ℝ) * Real.pi) / num_points
    let radius := if i % 2 = 0 then outer_radius else inner_radius
    (Real.cos angle * radius + center, Real.sin angle * radius + center)

/-- `SymbolGenerator._generate_polygon`: `num_sides = randint(3, 8)`,
`radius = effective_size * uniform(0.3, 0.45)`, `rotation = uniform(0, 2π)`,
`skew = uniform(0.8, 1.2)`. -/
noncomputable def generate_polygon (num_sides : ℕ) (radius rotation skew : ℝ) : List Point :=
  (List.range num_sides).map fun (i : ℕ) =>
    let angle := rotation + ((i : ℝ) * (2 * Real.pi) / num_sides)
    (Real.cos angle * radius * skew + center, Real.sin angle * radius + center)

/-- `SymbolGenerator._generate_spiral`: `num_points = randint(12, 20)`,
`max_radius = effective_size * uniform(0.3, 0.45)`, `rotations = uniform(1.5, 3.0)`. -/
noncomputable def generate_spiral (num_points : ℕ) (max_radius rotations : ℝ) : List Point :=
  (List.range num_points).map fun (i : ℕ) =>
    let angle := ((i : ℝ) * (2 * Real.pi) * rotations) / num_points
    let radius := ((i : ℝ) / num_points) * max_radius
    (Real.cos angle * radius + center, Real.sin angle * radius + center)

/-- `SymbolGenerator._generate_cross`: `s = effective_size * uniform(0.35, 0.45)`
(shadowing `size` in the source), `offset = uniform(0.3, 0.7)`,
`rotation = uniform(0, π/4)`; the eight base points are rotated then
translated to the center. -/
noncomputable def generate_cross (s offset rotation : ℝ) : List Point :=
  let base_points : List Point :=
    [(-s, 0), (s, 0), (0, -s), (0, s),
     (-s * offset, -s * offset), (s * offset, s * offset),
     (-s * offset, s * offset), (s * offset, -s * offset)]
  base_points.map fun p =>
    (p.1 * Real.cos rotation - p.2 * Real.sin rotation + center,
     p.1 * Real.sin rotation + p.2 * Real.cos rotation + center)

/-- `SymbolGenerator._generate_wave_circle`: `num_points = randint(24, 36)`,
`base_radius = effective_size * uniform(0.25, 0.35)`,
`wave_amplitude = effective_size * uniform(0.08, 0.15)`,
`wave_frequency = randint(3, 7)`, `phase = uniform(0, 2π)`. -/
noncomputable def generate_wave_circle (num_points : ℕ) (base_radius wave_amplitude : ℝ)
    (wave_frequency : ℕ) (phase : ℝ) : List Point :=
  (List.range num_points).map fun (i : ℕ) =>
    let angle := ((i : ℝ) * (2 * Real.pi)) / num_points
    let radius := base_radius + Real.sin (angle * wave_frequency + phase) * wave_amplitude
    (Real.cos angle * radius + center, Real.sin angle * radius + center)

/-- `SymbolGenerator._generate_diamond_pattern`:
`s = effective_size * uniform(0.3, 0.4)`, `num_points = randint(3, 5)`,
`rotation = uniform(0, π/4)`; each iteration `extend`s the list with two
points, one at radius `s` and one at radius `s * 0.5`. -/
noncomputable def generate_diamond_pattern (s : ℝ) (num_points : ℕ) (rotation : ℝ) :
    List Point :=
  (List.range num_points).flatMap fun (i : ℕ) =>
    let angle := ((i : ℝ) * (2 * Real.pi) / num_points) + rotation
    [(Real.cos angle * s + center, Real.sin angle * s + center),
     (Real.cos (angle + Real.pi / num_points) * (s * 0.5) + center,
      Real.sin (angle + Real.pi / num_points) * (s * 0.5) + center)]

/-- `SymbolGenerator._generate_zigzag`: `num_segments = randint(6, 10)`,
`radius = effective_size * uniform(0.3, 0.4)`,
`height = effective_size * uniform(0.1, 0.2)`, `rotation = uniform(0, 2π)`;
the loop runs over `range(num_segments + 1)` and on odd `i` (Python truthy
`i % 2`) uses `radius - height`, on even `i` uses `radius + height`. -/
noncomputable def generate_zigzag (num_segments : ℕ) (radius height rotation : ℝ) :
    List Point :=
  (List.range (num_segments + 1)).map fun (i : ℕ) =>
    let angle := rotation + ((i : ℝ) * (2 * Real.pi) / num_segments)
    let r1 := if i % 2 = 0 then radius + height else radius - height
    (Real.cos angle * r1 + center, Real.sin angle * r1 + center)

/-- The random choice made by `SymbolGenerator._generate_base_shape` together
with the random parameter draws of the chosen family. -/
inductive ShapeDraw
  | star (num_points : ℕ) (inner_radius outer_radius rotation : ℝ)
  | polygon (num_sides : ℕ) (radius rotation skew : ℝ)
  | spiral (num_points : ℕ) (max_radius rotations : ℝ)
  | cross (s offset rotation : ℝ)
  | wave_circle (num_points : ℕ) (base_radius wave_amplitude : ℝ)
      (wave_frequency : ℕ) (phase : ℝ)
  | diamond_pattern (s : ℝ) (num_points : ℕ) (rotation : ℝ)
  | zigzag (num_segments : ℕ) (radius height rotation : ℝ)

/-- The documented bounded ranges from which each family's parameters are
drawn (`randint(a, b)` gives an integer in `[a, b]`; `uniform(a, b)` a real
in `[a, b]`), with multiplicative factors of `effective_size` expanded. -/
def ShapeDraw.inRange : ShapeDraw → Prop
  | .star n ir orad rot =>
    4 ≤ n ∧ n ≤ 9 ∧
    0.1 * (effective_size : ℝ) ≤ ir ∧ ir ≤ 0.2 * (effective_size : ℝ) ∧
    0.35 * (effective_size : ℝ) ≤ orad ∧ orad ≤ 0.45 * (effective_size : ℝ) ∧
    0 ≤ rot ∧ rot ≤ Real.pi
  | .polygon n r rot sk =>
    3 ≤ n ∧ n ≤ 8 ∧
    0.3 * (effective_size : ℝ) ≤ r ∧ r ≤ 0.45 * (effective_size : ℝ) ∧
    0 ≤ rot ∧ rot ≤ 2 * Real.pi ∧
    0.8 ≤ sk ∧ sk ≤ 1.2
  | .spiral n mr rots =>
    12 ≤ n ∧ n ≤ 20 ∧
    0.3 * (effective_size : ℝ) ≤ mr ∧ mr ≤ 0.45 * (effective_size : ℝ) ∧
    1.5 ≤ rots ∧ rots ≤ 3.0
  | .cross s off rot =>
    0.35 * (effective_size : ℝ) ≤ s ∧ s ≤ 0.45 * (effective_size : ℝ) ∧
    0.3 ≤ off ∧ off ≤ 0.7 ∧
    0 ≤ rot ∧ rot ≤ Real.pi / 4
  | .wave_circle n br wa wf ph =>
    24 ≤ n ∧ n ≤ 36 ∧
    0.25 * (effective_size : ℝ) ≤ br ∧ br ≤ 0.35 * (effective_size : ℝ) ∧
    0.08 * (effective_size : ℝ) ≤ wa ∧ wa ≤ 0.15 * (effective_size : ℝ) ∧
    3 ≤ wf ∧ wf ≤ 7 ∧
    0 ≤ ph ∧ ph ≤ 2 * Real.pi
  | .diamond_pattern s n rot =>
    0.3 * (effective_size : ℝ) ≤ s ∧ s ≤ 0.4 * (effective_size : ℝ) ∧
    3 ≤ n ∧ n ≤ 5 ∧
    0 ≤ rot ∧ rot ≤ Real.pi / 4
  | .zigzag n r h rot =>
    6 ≤ n ∧ n ≤ 10 ∧
    0.3 * (effective_size : ℝ) ≤ r ∧ r ≤ 0.4 * (effective_size : ℝ) ∧
    0.1 * (effective_size : ℝ) ≤ h ∧ h ≤ 0.2 * (effective_size : ℝ) ∧
    0 ≤ rot ∧ rot ≤ 2 * Real.pi

/-- `SymbolGenerator._generate_base_shape`: dispatch on the randomly chosen
family with its randomly drawn parameters. -/
noncomputable def generate_base_shape : ShapeDraw → List Point
  | .star n ir orad rot => generate_star n ir orad rot
  | .polygon n r rot sk => generate_polygon n r rot sk
  | .spiral n mr rots => generate_spiral n mr rots
  | .cross s off rot => generate_cross s off rot
  | .wave_circle n br wa wf ph => generate_wave_circle n br wa wf ph
  | .diamond_pattern s n rot => generate_diamond_pattern s n rot
  | .zigzag n r h rot => generate_zigzag n r h rot

/-- Python's `random.randint(a, b)`: a uniform integer in `[a, b]`, `none`
modelling the `ValueError` raised when `a > b`; the arbitrary `draw` is
folded into the range. -/
def py_randint (lo hi draw : ℕ) : Option ℕ :=
  if lo ≤ hi then some (lo + draw % (hi - lo + 1)) else none

/-- Python's `random.sample(population, k)`: `none` models the `ValueError`
raised when `k` exceeds the population size.  No claim depends on which
elements are drawn, so the sample value is modelled as the first `k`. -/
def py_sample {α : Type} (l : List α) (k : ℕ) : Option (List α) :=
  if k ≤ l.length then some (l.take k) else none

/-- The decoration types of `_add_decoration` (`random.choices` over
`['dots', 'lines', 'none', 'circle', 'crosses', 'inner_shape']`). -/
inductive Decoration
  | dots
  | lines
  | none
  | circle
  | crosses
  | inner_shape

/-- `SymbolGenerator._add_decoration`, modelled up to the two draw calls
that can raise: the `lines` branch draws `randint(3, len(points))` radiating
lines to `sample(points, num_lines)` of the points, and the `crosses` branch
draws crosses at `sample(points, len(points)//2)` of the points; the other
branches only paint on the canvas.  The result is `none` exactly when a
draw raises. -/
def add_decoration (points : List Point) (dec : Decoration) (draw : ℕ) :
    Option Unit :=
  match dec with
  | .dots => some ()
  | .lines =>
    match py_randint 3 points.length draw with
    | Option.none => Option.none
    | some num_lines =>
      match py_sample points num_lines with
      | Option.none => Option.none
      | some _ => some ()
  | .none => some ()
  | .circle => some ()
  | .crosses =>
    match py_sample points (points.length / 2) with
    | Option.none => Option.none
    | some _ => some ()
  | .inner_shape => some ()

end SymbolGen

namespace Keyboard

/-- `SymbolKeyboard.KEY_ROWS`: the static keyboard layout, with a final
space-bar row. -/
def KEY_ROWS : List String := ["QWERTYUIOP", "ASDFGHJKL", "ZXCVBNM", " "]

/-- `SymbolKeyboard._create_key_mapping`: iterate over `KEY_ROWS[:-1]`
(excluding the space bar row), mapping each key to `symbol_index`, which
starts at 1 and increments per key.  The Python `dict` insertions are
modelled as an association list built in insertion order. -/
def create_key_mapping : List (Char × ℕ) :=
  (KEY_ROWS.dropLast.foldl
    (fun (acc : List (Char × ℕ) × ℕ) row =>
      row.toList.foldl
        (fun (acc2 : List (Char × ℕ) × ℕ) key =>
          (acc2.1 ++ [(key, acc2.2)], acc2.2 + 1)) acc)
    ([], 1)).1

/-- Python's `str.split(sep)` for a one-character separator (the only form
`_load_symbols` uses), over strings modelled as `List Char` so that the
kernel can evaluate them. -/
def py_split (sep : Char) : List Char → List (List Char)
  | [] => [[]]
  | c :: rest =>
    match py_split sep rest with
    | [] => [[c]]
    | seg :: segs => if c = sep then [] :: seg :: segs else (c :: seg) :: segs

/-- Python's `int(s)` restricted to the unsigned decimal literals that occur
in generated filenames; `none` models the `ValueError` on anything else. -/
def py_int (s : List Char) : Option ℕ :=
  if s ≠ [] ∧ s.all Char.isDigit then
    some (s.foldl (fun acc c => acc * 10 + (c.toNat - Char.toNat '0')) 0)
  else none

/-- Python's `str.endswith(suffix)`. -/
def ends_with (suffix s : List Char) : Bool :=
  decide (s.reverse.take suffix.length = suffix.reverse)

/-- The filesystem as seen by `SymbolKeyboard._load_symbols`: whether
`generated_symbols` exists, and the (sorted) listing of its entries. -/
structure FileSys where
  dirExists : Bool
  files : List (List Char)

/-- Errors of `_load_symbols`: `assetsMissing` is the
`FileNotFoundError("Generated symbols folder not found!")`; `badFile` is the
uncaught `ValueError`/`IndexError` when a `.png` filename does not parse as
`symbol_<n>.png`. -/
inductive LoadError
  | assetsMissing
  | badFile
  deriving DecidableEq, Repr

/-- `int(filename.split("_")[1].split(".")[0])`: `none` when the split has no
second component or the component is not a (nonnegative) integer literal. -/
def parse_index (filename : List Char) : Option ℕ :=
  match (py_split '_' filename).get? 1 with
  | none => none
  | some s =>
    match (py_split '.' s).get? 0 with
    | none => none
    | some t => py_int t

/-- The `for filename in sorted(os.listdir(symbol_dir))` loop of
`_load_symbols`: files ending in `.png` are parsed and loaded (keyed by the
parsed number); other files are skipped. -/
def load_symbols_aux : List (List Char) → Except LoadError (List ℕ)
  | [] => .ok []
  | f :: rest =>
    if ends_with (String.toList ".png") f then
      match parse_index f with
      | none => .error .badFile
      | some n =>
        match load_symbols_aux rest with
        | .error e => .error e
        | .ok l => .ok (n :: l)
    else load_symbols_aux rest

/-- `SymbolKeyboard._load_symbols`: raises `FileNotFoundError` when the
`generated_symbols` folder does not exist; otherwise loads every `.png`
file it finds, with no check that the indices used by the key mapping are
all present. -/
def load_symbols (fs : FileSys) : Except LoadError (List ℕ) :=
  if fs.dirExists then load_symbols_aux fs.files
  else .error .assetsMissing

/-- The per-key symbol blit of `SymbolKeyboard.draw_keyboard`:
`symbol_index = self.key_to_symbol.get(key); if symbol_index in self.symbols:`
— returns whether a symbol image is drawn for `key`; a missing index is
silently skipped, never an error. -/
def draw_key_symbol (symbols : List ℕ) (key : Char) : Bool :=
  match (create_key_mapping.find? (fun p => p.1 = key)).map Prod.snd with
  | some idx => idx ∈ symbols
  | none => false

end Keyboard

namespace SymbolGen

lemma is_unique_mem (hash : Img → ℕ) (st : List ℕ) (image : Img)
    (h : hash image ∈ st) : is_unique hash st image = (false, st) := by
  simp [is_unique, h]

lemma is_unique_not_mem (hash : Img → ℕ) (st : List ℕ) (image : Img)
    (h : hash image ∉ st) : is_unique hash st image = (true, hash image :: st) := by
  simp [is_unique, h]

/-- If every candidate in the window is already hashed, the retry loop runs
all `fuel` iterations, leaves the hash set unchanged and reports failure. -/
lemma gen_aux_all_mem (cand : ℕ → Img) (hash : Img → ℕ) :
    ∀ (fuel pos : ℕ) (st : List ℕ),
      (∀ i < fuel, hash (cand (pos + i)) ∈ st) →
      generate_symbol_aux cand hash pos st fuel = (none, st, pos + fuel, fuel) := by
  intro fuel
  induction fuel with
  | zero => intro pos st _; simp [generate_symbol_aux]
  | succ f ih =>
    intro pos st h
    have h0 : hash (cand pos) ∈ st := by simpa using h 0 (Nat.succ_pos f)
    have hrec := ih (pos + 1) st (fun i hi => by
      have := h (i + 1) (by omega)
      simpa [Nat.add_assoc, Nat.add_comm 1 i] using this)
    simp only [generate_symbol_aux, is_unique_mem hash st (cand pos) h0, hrec]
    simp [Nat.add_comm, Nat.add_assoc, Nat.add_left_comm]

/-- If position `k` holds the first fresh candidate, the loop accepts it on
iteration `k + 1`, consing its hash onto the unchanged set. -/
lemma gen_aux_first_fresh (cand : ℕ → Img) (hash : Img → ℕ) :
    ∀ (k fuel pos : ℕ) (st : List ℕ), k < fuel →
      hash (cand (pos + k)) ∉ st →
      (∀ i < k, hash (cand (pos + i)) ∈ st) →
      generate_symbol_aux cand hash pos st fuel =
        (some (cand (pos + k)), hash (cand (pos + k)) :: st, pos + k + 1, k + 1) := by
  intro k
  induction k with
  | zero =>
    intro fuel pos st hk hfresh _
    obtain ⟨f, rfl⟩ : ∃ f, fuel = f + 1 := ⟨fuel - 1, by omega⟩
    simp only [Nat.add_zero] at hfresh ⊢
    simp [generate_symbol_aux, is_unique_not_mem hash st (cand pos) hfresh]
  | succ k ih =>
    intro fuel pos st hk hfresh hbefore
    obtain ⟨f, rfl⟩ : ∃ f, fuel = f + 1 := ⟨fuel - 1, by omega⟩
    have h0 : hash (cand pos) ∈ st := by simpa using hbefore 0 (Nat.succ_pos k)
    have hrec := ih f (pos + 1) st (by omega)
      (by simpa [Nat.add_assoc, Nat.add_comm 1 k] using hfresh)
      (fun i hi => by
        have := hbefore (i + 1) (by omega)
        simpa [Nat.add_assoc, Nat.add_comm 1 i] using this)
    simp only [generate_symbol_aux, is_unique_mem hash st (cand pos) h0, hrec]
    simp [Nat.add_comm, Nat.add_assoc, Nat.add_left_comm]

/-- Inversion: an accepted image was fresh with respect to the pre-set, and
the post-set is exactly the pre-set with its hash consed on (rejected
attempts never mutate the set). -/
lemma gen_aux_some_inv (cand : ℕ → Img) (hash : Img → ℕ) :
    ∀ (fuel pos : ℕ) (st : List ℕ) (img : Img) (st' : List ℕ) (pos' n : ℕ),
      generate_symbol_aux cand hash pos st fuel = (some img, st', pos', n) →
      hash img ∉ st ∧ st' = hash img :: st := by
  intro fuel
  induction fuel with
  | zero => intro pos st img st' pos' n h; simp [generate_symbol_aux] at h
  | succ f ih =>
    intro pos st img st' pos' n h
    by_cases h0 : hash (cand pos) ∈ st
    · simp only [generate_symbol_aux, is_unique_mem hash st (cand pos) h0] at h
      rcases hr : generate_symbol_aux cand hash (pos + 1) st f with ⟨res, st2, pos2, n2⟩
      rw [hr] at h
      simp only [Prod.mk.injEq] at h
      obtain ⟨h1, h2, h3, h4⟩ := h
      exact ih (pos + 1) st img st' pos2 n2 (by rw [hr, h1, h2])
    · simp only [generate_symbol_aux, is_unique_not_mem hash st (cand pos) h0] at h
      simp only [Prod.mk.injEq, Option.some.injEq] at h
      obtain ⟨h1, h2, -, -⟩ := h
      subst h1
      exact ⟨h0, h2.symm⟩

/-- Inversion for `generate_symbol` itself (`fuel = max_attempts`). -/
lemma generate_symbol_some_inv (cand : ℕ → Img) (hash : Img → ℕ)
    (pos : ℕ) (st : List ℕ) (img : Img) (st' : List ℕ) (pos' n : ℕ)
    (h : generate_symbol cand hash pos st = (some img, st', pos', n)) :
    hash img ∉ st ∧ st' = hash img :: st :=
  gen_aux_some_inv cand hash max_attempts pos st img st' pos' n h

/-- Batch invariant: the hashes of the images accepted during one run of the
batch loop are pairwise distinct, and none of them was in the starting set. -/
lemma multi_aux_nodup (cand : ℕ → Img) (hash : Img → ℕ) :
    ∀ (rem i pos : ℕ) (st : List ℕ),
      (((generate_multiple_aux cand hash i pos st rem).2.1).map hash).Nodup ∧
      (∀ x ∈ ((generate_multiple_aux cand hash i pos st rem).2.1).map hash, x ∉ st) := by
  intro rem
  induction rem with
  | zero => intro i pos st; simp [generate_multiple_aux]
  | succ r ih =>
    intro i pos st
    rcases hg : generate_symbol cand hash pos st with ⟨res, st2, pos2, n2⟩
    cases res with
    | none => simp [generate_multiple_aux, hg]
    | some img =>
      obtain ⟨hfresh, hst2⟩ :=
        generate_symbol_some_inv cand hash pos st img st2 pos2 n2 hg
      simp only [generate_multiple_aux, hg]
      constructor
      · simp only [List.map_cons, List.nodup_cons]
        refine ⟨fun hmem => ?_, (ih (i + 1) pos2 st2).1⟩
        have hnot := (ih (i + 1) pos2 st2).2 _ hmem
        rw [hst2] at hnot
        exact hnot (by simp)
      · intro x hx
        simp only [List.map_cons, List.mem_cons] at hx
        rcases hx with rfl | hx
        · exact hfresh
        · have hnot := (ih (i + 1) pos2 st2).2 x hx
          rw [hst2] at hnot
          intro hxst
          exact hnot (by simp [hxst])

/-- Prepending the file for index `a + 1` to the files of indices
`a + 2 …` gives the files of indices `a + 1 …`. -/
lemma cons_file_map (a m : ℕ) :
    file_name (a + 1) :: (List.range m).map (fun j => file_name (a + 2 + j))
      = (List.range (m + 1)).map (fun j => file_name (a + 1 + j)) := by
  rw [List.range_succ_eq_map, List.map_cons, List.map_map]
  congr 1
  apply List.map_congr_left
  intro j _
  simp only [Function.comp]
  congr 1
  omega

/-- Batch invariant: the files written by the batch loop starting at 0-based
index `i` are, in order, exactly the sequential names for the indices that
succeeded; on failure at reported index `k`, exactly `k - 1 - i` files were
written after index `i`. -/
lemma multi_aux_files (cand : ℕ → Img) (hash : Img → ℕ) :
    ∀ (rem i pos : ℕ) (st : List ℕ),
      ((generate_multiple_aux cand hash i pos st rem).2.2 = none →
        (generate_multiple_aux cand hash i pos st rem).1
          = (List.range rem).map (fun j => file_name (i + 1 + j))) ∧
      (∀ k, (generate_multiple_aux cand hash i pos st rem).2.2 = some k →
        i + 1 ≤ k ∧ k ≤ i + rem ∧
        (generate_multiple_aux cand hash i pos st rem).1
          = (List.range (k - 1 - i)).map (fun j => file_name (i + 1 + j))) := by
  intro rem
  induction rem with
  | zero => intro i pos st; simp [generate_multiple_aux]
  | succ r ih =>
    intro i pos st
    rcases hg : generate_symbol cand hash pos st with ⟨res, st2, pos2, n2⟩
    cases res with
    | none =>
      simp only [generate_multiple_aux, hg]
      refine ⟨fun h => by simp at h, fun k hk => ?_⟩
      simp only [Option.some.injEq] at hk
      subst hk
      refine ⟨le_refl _, by omega, ?_⟩
      simp
    | some img =>
      simp only [generate_multiple_aux, hg]
      constructor
      · intro hnone
        have hrec := (ih (i + 1) pos2 st2).1 hnone
        rw [hrec]
        have := cons_file_map i r
        simpa [Nat.add_assoc, Nat.add_comm, Nat.add_left_comm] using this
      · intro k hk
        obtain ⟨hk1, hk2, hrec⟩ := (ih (i + 1) pos2 st2).2 k hk
        refine ⟨by omega, by omega, ?_⟩
        rw [hrec]
        have hsub : k - 1 - i = (k - 1 - (i + 1)) + 1 := by omega
        rw [hsub]
        have := cons_file_map i (k - 1 - (i + 1))
        simpa [Nat.add_assoc, Nat.add_comm, Nat.add_left_comm] using this

/-- C1: in every generation run starting from an empty generated-hash set,
the accepted images returned by `generate_symbol` have pairwise distinct
symbol hashes; moreover every accepted image's hash is absent from the set
at acceptance time and present in the set immediately after. -/
theorem C1_accepted_hashes_distinct :
    (∀ (cand : ℕ → Img) (hash : Img → ℕ) (pos : ℕ) (st : List ℕ)
        (img : Img) (st' : List ℕ) (pos' n : ℕ),
      generate_symbol cand hash pos st = (some img, st', pos', n) →
      hash img ∉ st ∧ hash img ∈ st') ∧
    (∀ (cand : ℕ → Img) (hash : Img → ℕ) (num : ℕ),
      (((generate_multiple_symbols cand hash num).2.1).map hash).Nodup) := by
  constructor
  · intro cand hash pos st img st' pos' n h
    obtain ⟨hfresh, hst⟩ := generate_symbol_some_inv cand hash pos st img st' pos' n h
    exact ⟨hfresh, by rw [hst]; simp⟩
  · intro cand hash num
    exact (multi_aux_nodup cand hash num 0 0 []).1

/-- Witness for C1 at concrete inputs: a single accepted image with hash 0,
and a 3-symbol run whose accepted hashes are checked pairwise distinct. -/
theorem C1_accepted_hashes_distinct_witness :
    (((fun (x : ℕ) => x) 0 ∉ ([] : List ℕ)) ∧ ((fun (x : ℕ) => x) 0 ∈ [0])) ∧
    (((generate_multiple_symbols (fun n => n) (fun x => x) 3).2.1).map
      (fun x => x)).Nodup :=
  ⟨C1_accepted_hashes_distinct.1 (fun _ => 0) (fun x => x) 0 [] 0 [0] 1 1 (by decide),
   C1_accepted_hashes_distinct.2 (fun n => n) (fun x => x) 3⟩

/-- C2: `_is_unique` accepts exactly when the image's hash is not yet in the
generated-hash set; on accept it adds exactly that hash, on reject it leaves
the set unchanged, and in either case the post-set contains the pre-set. -/
theorem C2_uniqueness_guard (hash : Img → ℕ) (st : List ℕ) (image : Img) :
    ((is_unique hash st image).1 = true ↔ hash image ∉ st) ∧
    ((is_unique hash st image).1 = true →
      (is_unique hash st image).2 = hash image :: st) ∧
    ((is_unique hash st image).1 = false →
      (is_unique hash st image).2 = st) ∧
    st ⊆ (is_unique hash st image).2 := by
  by_cases h : hash image ∈ st
  · simp [is_unique, h]
  · simp only [is_unique_not_mem hash st image h]
    refine ⟨by simp [h], by simp, by simp, ?_⟩
    exact fun x hx => List.mem_cons_of_mem _ hx

/-- Witness for C2: the guard accepts hash 0 on the empty set and rejects it
on `[0]`, leaving the set unchanged there. -/
theorem C2_uniqueness_guard_witness :
    ((is_unique (fun x => x) [] 0).1 = true ↔ (fun (x : ℕ) => x) 0 ∉ ([] : List ℕ)) ∧
    (is_unique (fun x => x) [] 0).2 = [0] ∧
    (is_unique (fun x => x) [0] 0).2 = [0] ∧
    [0] ⊆ (is_unique (fun x => x) [0] 0).2 :=
  ⟨(C2_uniqueness_guard (fun x => x) [] 0).1,
   (C2_uniqueness_guard (fun x => x) [] 0).2.1 (by decide),
   (C2_uniqueness_guard (fun x => x) [0] 0).2.2.1 (by decide),
   (C2_uniqueness_guard (fun x => x) [0] 0).2.2.2⟩

/-- C3: when every candidate collides with the pre-seeded set,
`generate_symbol` fails after running exactly `max_attempts = 100`
generate-render-check iterations (never fewer, never more); when position
`k` holds the first non-colliding candidate, it returns that image
immediately after `k + 1` iterations. -/
theorem C3_exhausted_attempts (cand : ℕ → Img) (hash : Img → ℕ)
    (pos : ℕ) (st : List ℕ) :
    ((∀ i < max_attempts, hash (cand (pos + i)) ∈ st) →
      generate_symbol cand hash pos st = (none, st, pos + max_attempts, max_attempts)) ∧
    (∀ k, k < max_attempts → hash (cand (pos + k)) ∉ st →
      (∀ i < k, hash (cand (pos + i)) ∈ st) →
      generate_symbol cand hash pos st =
        (some (cand (pos + k)), hash (cand (pos + k)) :: st, pos + k + 1, k + 1)) :=
  ⟨fun h => gen_aux_all_mem cand hash max_attempts pos st h,
   fun k hk hfresh hbefore => gen_aux_first_fresh cand hash k max_attempts pos st hk hfresh hbefore⟩

/-- Witness for C3: with every candidate hashing to the already-seen value 0
the loop fails with exactly 100 iterations; with an empty set the very first
candidate is accepted after 1 iteration. -/
theorem C3_exhausted_attempts_witness :
    generate_symbol (fun _ => 0) (fun x => x) 0 [0] = (none, [0], 100, 100) ∧
    generate_symbol (fun _ => 0) (fun x => x) 0 [] = (some 0, [0], 1, 1) := by
  constructor
  · have h := (C3_exhausted_attempts (fun _ => 0) (fun x => x) 0 [0]).1
      (fun i _ => by simp)
    simpa [max_attempts] using h
  · have h := (C3_exhausted_attempts (fun _ => 0) (fun x => x) 0 []).2 0
      (by simp [max_attempts]) (by simp) (fun i hi => by omega)
    simpa using h

/-- C4: the batch driver writes accepted images under sequential 1-based
names `symbol_1.png …` in generation order; on success all `count` names are
written, and when the `k`-th symbol fails the reported index is `k`, exactly
the first `k - 1` files were written and no further files are written.  In
particular, with `count = 5` and exhaustion on the 3rd symbol, exactly the
2 files `symbol_1.png`, `symbol_2.png` exist and the failure index is 3. -/
theorem C4_batch_sequential_files :
    (∀ (cand : ℕ → Img) (hash : Img → ℕ) (count : ℕ),
      ((generate_multiple_symbols cand hash count).2.2 = none →
        (generate_multiple_symbols cand hash count).1
          = (List.range count).map (fun j => file_name (j + 1))) ∧
      (∀ k, (generate_multiple_symbols cand hash count).2.2 = some k →
        1 ≤ k ∧ k ≤ count ∧
        (generate_multiple_symbols cand hash count).1
          = (List.range (k - 1)).map (fun j => file_name (j + 1)) ∧
        (generate_multiple_symbols cand hash count).1.length = k - 1)) ∧
    (generate_multiple_symbols (fun n => if n = 1 then 1 else 0) (fun x => x) 5
      = (["symbol_1.png", "symbol_2.png"], [0, 1], some 3)) := by
  refine ⟨?_, by decide⟩
  intro cand hash count
  have h := multi_aux_files cand hash count 0 0 []
  simp only [generate_multiple_symbols]
  constructor
  · intro hnone
    have := h.1 hnone
    simpa [Nat.add_comm] using this
  · intro k hk
    obtain ⟨hk1, hk2, hfiles⟩ := h.2 k hk
    refine ⟨hk1, by omega, ?_, ?_⟩
    · simpa [Nat.add_comm] using hfiles
    · rw [hfiles]
      simp

/-- Witness for C4: the success branch evaluated on a run where every
candidate is fresh (`count = 2`), and the failure branch on the concrete
count-5 run that exhausts on the 3rd symbol. -/
theorem C4_batch_sequential_files_witness :
    (generate_multiple_symbols (fun n => n) (fun x => x) 2).1
      = (List.range 2).map (fun j => file_name (j + 1)) ∧
    (1 ≤ 3 ∧ 3 ≤ 5 ∧
      (generate_multiple_symbols (fun n => if n = 1 then 1 else 0) (fun x => x) 5).1
        = (List.range (3 - 1)).map (fun j => file_name (j + 1)) ∧
      (generate_multiple_symbols (fun n => if n = 1 then 1 else 0) (fun x => x) 5).1.length
        = 3 - 1) :=
  ⟨(C4_batch_sequential_files.1 (fun n => n) (fun x => x) 2).1 (by decide),
   (C4_batch_sequential_files.1 (fun n => if n = 1 then 1 else 0) (fun x => x) 5).2 3
     (by decide)⟩

lemma margin_eq : margin = 50 := rfl

lemma effective_size_eq : effective_size = 400 := rfl

lemma center_eq : center = 250 := rfl

lemma esR : ((effective_size : ℕ) : ℝ) = 400 := by rw [effective_size_eq]; norm_num

lemma centerR : ((center : ℕ) : ℝ) = 250 := by rw [center_eq]; norm_num

lemma sizeR : ((size : ℕ) : ℝ) = 500 := by norm_num [size]

lemma marginR : ((margin : ℕ) : ℝ) = 50 := by rw [margin_eq]; norm_num

/-- A point placed at angle `θ` and radius `r ∈ [0, 240]` from the center
stays within 240 of the center in each coordinate. -/
lemma point_offset_bound (θ r : ℝ) (h0 : 0 ≤ r) (hr : r ≤ 240) :
    |Real.cos θ * r + ((center : ℕ) : ℝ) - ((center : ℕ) : ℝ)| ≤ 240 ∧
    |Real.sin θ * r + ((center : ℕ) : ℝ) - ((center : ℕ) : ℝ)| ≤ 240 := by
  rw [add_sub_cancel_right, add_sub_cancel_right]
  constructor
  · rw [abs_mul, abs_of_nonneg h0]
    have h1 : |Real.cos θ| ≤ 1 := Real.abs_cos_le_one θ
    nlinarith [abs_nonneg (Real.cos θ)]
  · rw [abs_mul, abs_of_nonneg h0]
    have h1 : |Real.sin θ| ≤ 1 := Real.abs_sin_le_one θ
    nlinarith [abs_nonneg (Real.sin θ)]

/-- Rotating a vector of norm at most `s ≤ 180` keeps both coordinates
within 240 in absolute value. -/
lemma rotate_bound (a b s ρ : ℝ) (hs : 0 ≤ s) (hs2 : s ≤ 180)
    (hab : a ^ 2 + b ^ 2 ≤ s ^ 2) :
    |a * Real.cos ρ - b * Real.sin ρ| ≤ 240 ∧
    |a * Real.sin ρ + b * Real.cos ρ| ≤ 240 := by
  have hcs := Real.sin_sq_add_cos_sq ρ
  have ht : (a * Real.cos ρ - b * Real.sin ρ) ^ 2 +
      (a * Real.sin ρ + b * Real.cos ρ) ^ 2 = a ^ 2 + b ^ 2 := by
    linear_combination (a ^ 2 + b ^ 2) * hcs
  constructor
  · rw [abs_le]
    constructor
    · nlinarith [sq_nonneg (a * Real.cos ρ - b * Real.sin ρ + 240),
        sq_nonneg (a * Real.sin ρ + b * Real.cos ρ)]
    · nlinarith [sq_nonneg (a * Real.cos ρ - b * Real.sin ρ - 240),
        sq_nonneg (a * Real.sin ρ + b * Real.cos ρ)]
  · rw [abs_le]
    constructor
    · nlinarith [sq_nonneg (a * Real.sin ρ + b * Real.cos ρ + 240),
        sq_nonneg (a * Real.cos ρ - b * Real.sin ρ)]
    · nlinarith [sq_nonneg (a * Real.sin ρ + b * Real.cos ρ - 240),
        sq_nonneg (a * Real.cos ρ - b * Real.sin ρ)]

/-- The wave-circle radius `base_radius + sin(·) * wave_amplitude` stays in
`[0, 240]` for parameters in their documented ranges. -/
lemma wave_radius_bound (br wa t : ℝ) (hbr1 : 100 ≤ br) (hbr2 : br ≤ 140)
    (hwa1 : 32 ≤ wa) (hwa2 : wa ≤ 60) (ht1 : -1 ≤ t) (ht2 : t ≤ 1) :
    0 ≤ br + t * wa ∧ br + t * wa ≤ 240 :=
  ⟨by nlinarith, by nlinarith⟩

/-- Every point of every shape family, for parameters within the documented
ranges, lies within 240 of the center in each coordinate. -/
lemma shape_offset_le (sp : ShapeDraw) (h : sp.inRange) :
    ∀ p ∈ generate_base_shape sp,
      |p.1 - ((center : ℕ) : ℝ)| ≤ 240 ∧ |p.2 - ((center : ℕ) : ℝ)| ≤ 240 := by
  cases sp with
  | star n ir orad rot =>
    obtain ⟨-, -, hir1, hir2, hor1, hor2, -, -⟩ := h
    rw [esR] at hir1 hir2 hor1 hor2
    intro p hp
    simp only [generate_base_shape, generate_star, List.mem_map, List.mem_range] at hp
    obtain ⟨i, -, rfl⟩ := hp
    dsimp only
    by_cases hpar : i % 2 = 0
    · rw [if_pos hpar]
      exact point_offset_bound _ _ (by linarith) (by linarith)
    · rw [if_neg hpar]
      exact point_offset_bound _ _ (by linarith) (by linarith)
  | polygon n r rot sk =>
    obtain ⟨-, -, hr1, hr2, -, -, hsk1, hsk2⟩ := h
    rw [esR] at hr1 hr2
    intro p hp
    simp only [generate_base_shape, generate_polygon, List.mem_map, List.mem_range] at hp
    obtain ⟨i, -, rfl⟩ := hp
    dsimp only
    have hrs0 : 0 ≤ r * sk := mul_nonneg (by linarith) (by linarith)
    have hrs : r * sk ≤ 180 * 1.2 :=
      mul_le_mul (by linarith) (by linarith) (by linarith) (by norm_num)
    constructor
    · rw [mul_assoc]
      exact (point_offset_bound _ (r * sk) hrs0 (by linarith)).1
    · exact (point_offset_bound _ r (by linarith) (by linarith)).2
  | spiral n mr rots =>
    obtain ⟨hn1, -, hmr1, hmr2, -, -⟩ := h
    rw [esR] at hmr1 hmr2
    intro p hp
    simp only [generate_base_shape, generate_spiral, List.mem_map, List.mem_range] at hp
    obtain ⟨i, hi, rfl⟩ := hp
    dsimp only
    have hnn : 0 < n := by omega
    have hin : i ≤ n := by omega
    have hn0 : (0 : ℝ) < (n : ℝ) := by exact_mod_cast hnn
    have hi' : (i : ℝ) ≤ (n : ℝ) := by exact_mod_cast hin
    have hfrac0 : 0 ≤ (i : ℝ) / (n : ℝ) :=
      div_nonneg (Nat.cast_nonneg i) (Nat.cast_nonneg n)
    have hfrac1 : (i : ℝ) / (n : ℝ) ≤ 1 := by rw [div_le_one hn0]; exact hi'
    refine point_offset_bound _ _ ?_ ?_
    · exact mul_nonneg hfrac0 (by linarith)
    · calc (i : ℝ) / n * mr ≤ 1 * mr := by nlinarith
        _ = mr := one_mul mr
        _ ≤ 240 := by linarith
  | cross s off rot =>
    obtain ⟨hs1, hs2, ho1, ho2, -, -⟩ := h
    rw [esR] at hs1 hs2
    intro p hp
    simp only [generate_base_shape, generate_cross, List.mem_map] at hp
    obtain ⟨q, hq, rfl⟩ := hp
    dsimp only
    rw [add_sub_cancel_right, add_sub_cancel_right]
    have hs0 : (0 : ℝ) ≤ s := by linarith
    have hs180 : s ≤ 180 := by linarith
    have hoffsq : off ^ 2 ≤ 0.49 := by
      nlinarith [mul_nonneg (show (0 : ℝ) ≤ 0.7 - off by linarith)
        (show (0 : ℝ) ≤ 0.7 + off by linarith)]
    have hdiag : (s * off) ^ 2 + (s * off) ^ 2 ≤ s ^ 2 := by
      nlinarith [mul_nonneg (sq_nonneg s) (show (0 : ℝ) ≤ 0.49 - off ^ 2 by linarith)]
    fin_cases hq <;> dsimp only <;>
      apply rotate_bound _ _ s rot hs0 hs180 <;> nlinarith [hdiag, sq_nonneg s]
  | wave_circle n br wa wf ph =>
    obtain ⟨-, -, hbr1, hbr2, hwa1, hwa2, -, -, -, -⟩ := h
    rw [esR] at hbr1 hbr2 hwa1 hwa2
    intro p hp
    simp only [generate_base_shape, generate_wave_circle, List.mem_map, List.mem_range] at hp
    obtain ⟨i, -, rfl⟩ := hp
    dsimp only
    refine point_offset_bound _ _ ?_ ?_
    · exact (wave_radius_bound br wa _ (by linarith) (by linarith) (by linarith)
        (by linarith) (Real.neg_one_le_sin _) (Real.sin_le_one _)).1
    · exact (wave_radius_bound br wa _ (by linarith) (by linarith) (by linarith)
        (by linarith) (Real.neg_one_le_sin _) (Real.sin_le_one _)).2
  | diamond_pattern s n rot =>
    obtain ⟨hs1, hs2, -, -, -, -⟩ := h
    rw [esR] at hs1 hs2
    intro p hp
    simp only [generate_base_shape, generate_diamond_pattern, List.mem_flatMap,
      List.mem_range] at hp
    obtain ⟨i, -, hp2⟩ := hp
    simp only [List.mem_cons, List.not_mem_nil, or_false] at hp2
    rcases hp2 with rfl | rfl
    · exact point_offset_bound _ s (by linarith) (by linarith)
    · exact point_offset_bound _ (s * 0.5) (by nlinarith) (by nlinarith)
  | zigzag n r ht rot =>
    obtain ⟨-, -, hr1, hr2, hh1, hh2, -, -⟩ := h
    rw [esR] at hr1 hr2 hh1 hh2
    intro p hp
    simp only [generate_base_shape, generate_zigzag, List.mem_map, List.mem_range] at hp
    obtain ⟨i, -, rfl⟩ := hp
    dsimp only
    by_cases hpar : i % 2 = 0
    · rw [if_pos hpar]
      exact point_offset_bound _ _ (by linarith) (by linarith)
    · rw [if_neg hpar]
      exact point_offset_bound _ _ (by linarith) (by linarith)

lemma sum_const_two (l : List ℕ) : (l.map (fun _ => 2)).sum = 2 * l.length := by
  induction l with
  | nil => simp
  | cons a t ih =>
    simp only [List.map_cons, List.sum_cons, List.length_cons, ih]
    omega

lemma length_comp_pair {α β : Type} (f g : α → β) (l : List α) :
    (l.map (List.length ∘ fun i => [f i, g i])).sum = 2 * l.length := by
  induction l with
  | nil => simp
  | cons a t ih =>
    simp only [List.map_cons, List.sum_cons, Function.comp_apply, List.length_cons,
      List.length_nil, List.length_cons, ih]
    omega

/-- Every shape family, for parameters within the documented ranges, returns
at least 3 points. -/
lemma shape_length_ge (sp : ShapeDraw) (h : sp.inRange) :
    3 ≤ (generate_base_shape sp).length := by
  cases sp with
  | star n ir orad rot =>
    obtain ⟨hn, -⟩ := h
    simp only [generate_base_shape, generate_star, List.length_map, List.length_range]
    omega
  | polygon n r rot sk =>
    obtain ⟨hn, -⟩ := h
    simp only [generate_base_shape, generate_polygon, List.length_map, List.length_range]
    omega
  | spiral n mr rots =>
    obtain ⟨hn, -⟩ := h
    simp only [generate_base_shape, generate_spiral, List.length_map, List.length_range]
    omega
  | cross s off rot =>
    norm_num [generate_base_shape, generate_cross]
  | wave_circle n br wa wf ph =>
    obtain ⟨hn, -⟩ := h
    simp only [generate_base_shape, generate_wave_circle, List.length_map,
      List.length_range]
    omega
  | diamond_pattern s n rot =>
    obtain ⟨-, -, hn, -⟩ := h
    simp only [generate_base_shape, generate_diamond_pattern, List.length_flatMap]
    rw [length_comp_pair, List.length_range]
    omega
  | zigzag n r ht rot =>
    obtain ⟨hn, -⟩ := h
    simp only [generate_base_shape, generate_zigzag, List.length_map, List.length_range]
    omega

/-- The concrete draw used by several witnesses: the cross family with
`s = 140`, `offset = 0.3`, `rotation = 0`, all within their ranges. -/
lemma cross_draw_inRange : (ShapeDraw.cross 140 0.3 0).inRange :=
  ⟨by rw [esR]; norm_num, by rw [esR]; norm_num, by norm_num, by norm_num,
   le_refl 0, by positivity⟩

/-- C5 as stated is refuted: the polygon family with radius 176, skew 1.19
and rotation 0 (all strictly inside the documented ranges) places its first
vertex at `x = 176 * 1.19 + 250 = 459.44 > 450 = size - margin`, violating
the margin of `size/10` per side. -/
theorem C5_margin_counterexample :
    (ShapeDraw.polygon 3 176 0 1.19).inRange ∧
    ¬ (∀ p ∈ generate_base_shape (ShapeDraw.polygon 3 176 0 1.19),
        ((margin : ℕ) : ℝ) ≤ p.1 ∧ p.1 ≤ ((size : ℕ) : ℝ) - ((margin : ℕ) : ℝ) ∧
        ((margin : ℕ) : ℝ) ≤ p.2 ∧ p.2 ≤ ((size : ℕ) : ℝ) - ((margin : ℕ) : ℝ)) := by
  constructor
  · exact ⟨by norm_num, by norm_num, by rw [esR]; norm_num, by rw [esR]; norm_num,
      le_refl 0, by positivity, by norm_num, by norm_num⟩
  · intro hall
    have hmem : (Real.cos (0 + ((0 : ℕ) : ℝ) * (2 * Real.pi) / ((3 : ℕ) : ℝ)) * 176 * 1.19
          + ((center : ℕ) : ℝ),
        Real.sin (0 + ((0 : ℕ) : ℝ) * (2 * Real.pi) / ((3 : ℕ) : ℝ)) * 176
          + ((center : ℕ) : ℝ)) ∈
        generate_base_shape (ShapeDraw.polygon 3 176 0 1.19) := by
      simp only [generate_base_shape, generate_polygon, List.mem_map, List.mem_range]
      exact ⟨0, by norm_num, rfl⟩
    have hx := (hall _ hmem).2.1
    rw [centerR, sizeR, marginR] at hx
    have hzero : (0 : ℝ) + ((0 : ℕ) : ℝ) * (2 * Real.pi) / ((3 : ℕ) : ℝ) = 0 := by
      norm_num
    rw [hzero, Real.cos_zero] at hx
    norm_num at hx

/-- C5 amended: every shape family, for every draw of its random parameters
within the documented bounded ranges, produces a Shape whose points all lie
within `effective_size` of the center in each coordinate (the stronger
margin claim — within `size/10` of the border — does not hold, see the
counterexample). -/
theorem C5_effective_region_amended (sp : ShapeDraw) (h : sp.inRange) :
    ∀ p ∈ generate_base_shape sp,
      |p.1 - ((center : ℕ) : ℝ)| ≤ ((effective_size : ℕ) : ℝ) ∧
      |p.2 - ((center : ℕ) : ℝ)| ≤ ((effective_size : ℕ) : ℝ) := by
  intro p hp
  obtain ⟨h1, h2⟩ := shape_offset_le sp h p hp
  rw [esR]
  exact ⟨by linarith, by linarith⟩

/-- Witness for the amended C5 at the concrete cross draw. -/
theorem C5_effective_region_amended_witness :
    (ShapeDraw.cross 140 0.3 0).inRange ∧
    ∀ p ∈ generate_base_shape (ShapeDraw.cross 140 0.3 0),
      |p.1 - ((center : ℕ) : ℝ)| ≤ ((effective_size : ℕ) : ℝ) ∧
      |p.2 - ((center : ℕ) : ℝ)| ≤ ((effective_size : ℕ) : ℝ) :=
  ⟨cross_draw_inRange, C5_effective_region_amended _ cross_draw_inRange⟩

/-- C6: every shape family, for every draw of its random parameters within
the documented bounded ranges, produces points within the canvas bounds
`0 ≤ x ≤ size` and `0 ≤ y ≤ size` for the default `size = 500`. -/
theorem C6_points_within_canvas (sp : ShapeDraw) (h : sp.inRange) :
    ∀ p ∈ generate_base_shape sp,
      0 ≤ p.1 ∧ p.1 ≤ ((size : ℕ) : ℝ) ∧ 0 ≤ p.2 ∧ p.2 ≤ ((size : ℕ) : ℝ) := by
  intro p hp
  obtain ⟨h1, h2⟩ := shape_offset_le sp h p hp
  rw [centerR] at h1 h2
  rw [abs_le] at h1 h2
  rw [sizeR]
  exact ⟨by linarith [h1.1], by linarith [h1.2], by linarith [h2.1], by linarith [h2.2]⟩

/-- Witness for C6 at the concrete cross draw. -/
theorem C6_points_within_canvas_witness :
    (ShapeDraw.cross 140 0.3 0).inRange ∧
    ∀ p ∈ generate_base_shape (ShapeDraw.cross 140 0.3 0),
      0 ≤ p.1 ∧ p.1 ≤ ((size : ℕ) : ℝ) ∧ 0 ≤ p.2 ∧ p.2 ≤ ((size : ℕ) : ℝ) :=
  ⟨cross_draw_inRange, C6_points_within_canvas _ cross_draw_inRange⟩

/-- C7: every shape family, for every draw within the documented ranges,
returns a Shape with at least 2 points (in fact at least 3). -/
theorem C7_no_degenerate_shapes (sp : ShapeDraw) (h : sp.inRange) :
    2 ≤ (generate_base_shape sp).length := by
  have := shape_length_ge sp h
  omega

/-- Witness for C7 at the concrete cross draw. -/
theorem C7_no_degenerate_shapes_witness :
    (ShapeDraw.cross 140 0.3 0).inRange ∧
    2 ≤ (generate_base_shape (ShapeDraw.cross 140 0.3 0)).length :=
  ⟨cross_draw_inRange, C7_no_degenerate_shapes _ cross_draw_inRange⟩

/-- C10: every shape family returns at least 3 points, so in
`_add_decoration` the `lines` branch's `randint(3, len(points))` has a valid
range and its `sample(points, num_lines)` samples at most `len(points)`
elements, the `crosses` branch samples `len(points)//2 ≤ len(points)`
elements, and `_add_decoration` never raises on a shape produced by
`_generate_base_shape`. -/
theorem C10_decoration_never_raises (sp : ShapeDraw) (h : sp.inRange) :
    3 ≤ (generate_base_shape sp).length ∧
    ∀ (dec : Decoration) (draw : ℕ),
      (add_decoration (generate_base_shape sp) dec draw).isSome := by
  have h3 := shape_length_ge sp h
  refine ⟨h3, ?_⟩
  intro dec draw
  cases dec with
  | dots => simp [add_decoration]
  | lines =>
    simp only [add_decoration, py_randint, if_pos h3]
    have hmod : draw % ((generate_base_shape sp).length - 3 + 1)
        ≤ (generate_base_shape sp).length - 3 :=
      Nat.le_of_lt_succ (Nat.mod_lt _ (by omega))
    have hle : 3 + draw % ((generate_base_shape sp).length - 3 + 1)
        ≤ (generate_base_shape sp).length := by omega
    simp [py_sample, hle]
  | none => simp [add_decoration]
  | circle => simp [add_decoration]
  | crosses =>
    have hdiv : (generate_base_shape sp).length / 2 ≤ (generate_base_shape sp).length :=
      Nat.div_le_self _ _
    simp [add_decoration, py_sample, hdiv]
  | inner_shape => simp [add_decoration]

/-- Witness for C10 at the concrete cross draw. -/
theorem C10_decoration_never_raises_witness :
    (ShapeDraw.cross 140 0.3 0).inRange ∧
    (3 ≤ (generate_base_shape (ShapeDraw.cross 140 0.3 0)).length ∧
      ∀ (dec : Decoration) (draw : ℕ),
        (add_decoration (generate_base_shape (ShapeDraw.cross 140 0.3 0))
          dec draw).isSome) :=
  ⟨cross_draw_inRange, C10_decoration_never_raises _ cross_draw_inRange⟩

end SymbolGen

namespace Keyboard

/-- `load_symbols_aux` can only fail with `badFile` (an unparseable `.png`
name); it never produces `assetsMissing`. -/
lemma load_symbols_aux_no_assets :
    ∀ (l : List (List Char)) (e : LoadError),
      load_symbols_aux l = .error e → e = .badFile := by
  intro l
  induction l with
  | nil => intro e h; simp [load_symbols_aux] at h
  | cons f rest ih =>
    intro e h
    simp only [load_symbols_aux] at h
    by_cases hp : ends_with (String.toList ".png") f = true
    · rw [if_pos hp] at h
      cases hpi : parse_index f with
      | none =>
        rw [hpi] at h
        cases h
        rfl
      | some n =>
        rw [hpi] at h
        cases hrec : load_symbols_aux rest with
        | error e2 =>
          rw [hrec] at h
          cases h
          exact ih _ hrec
        | ok l2 => rw [hrec] at h; cases h
    · rw [if_neg hp] at h
      exact ih e h

/-- C8: the key mapping built from the three letter rows is a strict
injection of the 26 letters onto the indices 1..26 — distinct keys, distinct
indices, the indices in order are exactly `1, …, 26` — and the space key is
mapped to no symbol index. -/
theorem C8_key_mapping_injection :
    (create_key_mapping.map Prod.fst).Nodup ∧
    (create_key_mapping.map Prod.snd).Nodup ∧
    create_key_mapping.map Prod.snd = (List.range 26).map (· + 1) ∧
    create_key_mapping.find? (fun p => p.1 = ' ') = none := by
  decide

/-- C9 as stated is refuted at a concrete filesystem: the folder exists and
holds only `symbol_1.png`, so index 2 — referenced by the key mapping — has
no corresponding image file, yet `_load_symbols` succeeds with the partial
symbol table `[1]` instead of failing with `AssetsMissing`. -/
theorem C9_fail_fast_counterexample :
    (FileSys.mk true ["symbol_1.png".toList]).dirExists = true ∧
    2 ∈ create_key_mapping.map Prod.snd ∧
    load_symbols (FileSys.mk true ["symbol_1.png".toList]) = Except.ok [1] ∧
    (2 : ℕ) ∉ ([1] : List ℕ) :=
  ⟨rfl, by decide, rfl, by decide⟩

/-- C9 amended: the mapper fails fast with `AssetsMissing` when the expected
output location does not exist; but a key-mapping index with no
corresponding image file does not fail at load time — loading proceeds
(only unparseable `.png` names can raise, and with a different error), and
`draw_keyboard` silently draws such a key without a symbol (degraded mode):
with only image 1 loaded, key `Q` (index 1) gets its symbol drawn while key
`W` (index 2) does not, with no error. -/
theorem C9_assets_missing_amended :
    (∀ fs : FileSys, fs.dirExists = false →
      load_symbols fs = Except.error LoadError.assetsMissing) ∧
    (∀ fs : FileSys, fs.dirExists = true →
      ∀ e, load_symbols fs = Except.error e → e = LoadError.badFile) ∧
    draw_key_symbol [1] 'Q' = true ∧
    draw_key_symbol [1] 'W' = false := by
  refine ⟨?_, ?_, by decide, by decide⟩
  · intro fs h
    simp [load_symbols, h]
  · intro fs h e he
    rw [load_symbols, if_pos (by rw [h])] at he
    exact load_symbols_aux_no_assets fs.files e he

/-- Witness for C9 amended: a missing folder raises `AssetsMissing`; a folder
containing an unparseable `.png` raises the other error, not
`AssetsMissing`. -/
theorem C9_assets_missing_amended_witness :
    load_symbols (FileSys.mk false []) = Except.error LoadError.assetsMissing ∧
    LoadError.badFile = LoadError.badFile ∧
    draw_key_symbol [1] 'Q' = true ∧
    draw_key_symbol [1] 'W' = false :=
  ⟨C9_assets_missing_amended.1 (FileSys.mk false []) rfl,
   C9_assets_missing_amended.2.1 (FileSys.mk true ["bad.png".toList]) rfl
     LoadError.badFile rfl,
   C9_assets_missing_amended.2.2.1,
   C9_assets_missing_amended.2.2.2⟩

end Keyboard
